import Mathlib

/-!
A shallow embedding of the contract `InsiderRingAnalysis`
(src/contracts/InsiderRingAnalysis.sol) in Lean 4, together with proofs
settling the specification claims about it.

Modelling conventions:

* An encrypted `euint32` ciphertext is modelled by the plaintext it
  encrypts, a natural number reduced modulo `2 ^ 32` by every FHE
  operation.  The homomorphic operations of the external FHE library
  are modelled as the corresponding plaintext operations; the library's
  synchronous `FHE.decrypt` is plaintext extraction, i.e. the identity
  on this model.  An `ebool` is modelled by `Bool`.
* `uint256` quantities (ids, sizes, indices, counters) are modelled as
  unbounded naturals.  The one checked-arithmetic abort that is reachable
  at small inputs — `results.length - 1` underflowing in the decryption
  callback when the decoded plaintext list is empty — is modelled
  explicitly; overflow at `2 ^ 256` on ids and sizes is not modelled.
* Dynamic-array accesses carry the EVM bounds check: an out-of-range
  read or write aborts (`Err.indexOutOfBounds`).
* A reverting call leaves the state unchanged; fallible entry points
  return `Except Err`, and the step function keeps the pre-state on
  `.error`.
* Solidity mappings are total functions from keys to values, with the
  zero-initialised default.  Events are ignored (no state effect).
* The oracle token returned by `FHE.requestDecryption` and the outcome
  of `FHE.checkSignatures` are external inputs; they enter the model as
  explicit parameters (`freshToken`, `sigOk`).
-/

namespace InsiderRing

/-- Modulus of the `euint32` plaintext space. -/
def U32 : Nat := 2 ^ 32

/-- An encrypted `euint32`, modelled by the plaintext it encrypts. -/
abbrev EU32 := Nat

namespace FHE

/-- `FHE.asEuint32`: the trivial encryption of a plaintext constant. -/
def asEuint32 (n : Nat) : EU32 := n % U32

/-- `FHE.add` on `euint32`: homomorphic wrapping addition. -/
def add (a b : EU32) : EU32 := (a + b) % U32

/-- `FHE.ne`: encrypted disequality test, an `ebool`. -/
def ne (a b : EU32) : Bool := a != b

/-- `FHE.gt`: encrypted strict-order test, an `ebool`. -/
def gt (a b : EU32) : Bool := b < a

/-- `FHE.and` on `ebool`. -/
def and (a b : Bool) : Bool := a && b

/-- `FHE.select cond x y`: oblivious choice between two ciphertexts. -/
def select (c : Bool) (a b : EU32) : EU32 := if c then a else b

/-- `FHE.decrypt`: plaintext extraction, the identity on this model. -/
def decrypt (a : EU32) : Nat := a

end FHE

/-- `struct EncryptedTransaction` of the contract. -/
structure EncryptedTransaction where
  id : Nat
  encryptedTraderId : EU32
  encryptedCounterparty : EU32
  encryptedSecurity : EU32
  encryptedAmount : EU32
  encryptedTimestamp : EU32
  submissionTime : Nat
deriving DecidableEq

/-- `struct AnalysisResult` of the contract. -/
structure AnalysisResult where
  encryptedRingMembers : List EU32
  encryptedRiskScore : EU32
  isComplete : Bool
deriving DecidableEq

/-- `struct DecryptedResult` of the contract. -/
structure DecryptedResult where
  ringMembers : List Nat
  riskScore : Nat
  isRevealed : Bool
deriving DecidableEq

/-- Revert reasons and panics raised by the contract's entry points. -/
inductive Err where
  | invalidIndex          -- require "Invalid index"
  | analysisNotComplete   -- require "Analysis not complete"
  | alreadyRevealed       -- require "Already revealed"
  | invalidRequest        -- require "Invalid request"
  | matrixNotInitialized  -- require "Matrix not initialized"
  | proofVerificationFailed -- FHE.checkSignatures rejects the proof
  | arithmeticOverflow    -- Solidity 0.8 checked-arithmetic panic
  | indexOutOfBounds      -- EVM array bounds panic
deriving DecidableEq

/-- The contract's storage. -/
structure ContractState where
  transactionCount : Nat
  encryptedTransactions : Nat → EncryptedTransaction
  analysisResults : Nat → AnalysisResult
  decryptedResults : Nat → DecryptedResult
  encryptedAdjacencyMatrix : List EU32
  matrixSize : Nat
  requestToAnalysisId : Nat → Nat

/-- Point update of a Solidity mapping. -/
def upd {α : Type} (m : Nat → α) (k : Nat) (v : α) : Nat → α :=
  fun x => if x = k then v else m x

/-- Freshly deployed storage: all slots zero-initialised. -/
def initialState : ContractState where
  transactionCount := 0
  encryptedTransactions := fun _ => ⟨0, 0, 0, 0, 0, 0, 0⟩
  analysisResults := fun _ => ⟨[], 0, false⟩
  decryptedResults := fun _ => ⟨[], 0, false⟩
  encryptedAdjacencyMatrix := []
  matrixSize := 0
  requestToAnalysisId := fun _ => 0

/-- `submitEncryptedTransaction`: appends a record under the next id. -/
def submitEncryptedTransaction (tid cp sec amt ts : EU32) (blockTimestamp : Nat)
    (s : ContractState) : ContractState :=
  let newId := s.transactionCount + 1
  { s with
    transactionCount := newId
    encryptedTransactions := upd s.encryptedTransactions newId
      ⟨newId, tid, cp, sec, amt, ts, blockTimestamp⟩ }

/-- `initializeAdjacencyMatrix`: sets `matrixSize` and rebuilds the flat
matrix, writing encrypted zero into each of the `size * size` cells.
The source performs no validation of `size`. -/
def initializeAdjacencyMatrix (size : Nat) (s : ContractState) : ContractState :=
  { s with
    matrixSize := size
    encryptedAdjacencyMatrix :=
      (List.range (size * size)).map (fun _ => FHE.asEuint32 0) }

/-- `addEncryptedEdge`: requires both indices below `matrixSize`, then
overwrites the flat cell `from * matrixSize + to`. -/
def addEncryptedEdge (f t : Nat) (w : EU32) (s : ContractState) :
    Except Err ContractState :=
  if f < s.matrixSize ∧ t < s.matrixSize then
    if f * s.matrixSize + t < s.encryptedAdjacencyMatrix.length then
      .ok { s with
        encryptedAdjacencyMatrix :=
          s.encryptedAdjacencyMatrix.set (f * s.matrixSize + t) w }
    else .error .indexOutOfBounds
  else .error .invalidIndex

/-- `getAdjacencyElement`: requires both indices below `matrixSize`,
then reads the flat cell `i * matrixSize + j`. -/
def getAdjacencyElement (i j : Nat) (s : ContractState) : Except Err EU32 :=
  if i < s.matrixSize ∧ j < s.matrixSize then
    match s.encryptedAdjacencyMatrix[i * s.matrixSize + j]? with
    | some w => .ok w
    | none => .error .indexOutOfBounds
  else .error .invalidIndex

/-- `startRingDetection`: emits an event only; storage is unchanged. -/
def startRingDetection (s : ContractState) : ContractState := s

/-- `storeAnalysisResults`: unconditionally overwrites the encrypted
result for `analysisId` (marking it complete) and resets its paired
decrypted result to empty, unrevealed.  The source has no duplicate
check: it never reverts. -/
def storeAnalysisResults (analysisId : Nat) (ring : List EU32) (score : EU32)
    (s : ContractState) : ContractState :=
  { s with
    analysisResults := upd s.analysisResults analysisId ⟨ring, score, true⟩
    decryptedResults := upd s.decryptedResults analysisId ⟨[], 0, false⟩ }

/-- `requestResultDecryption`: requires a complete, not-yet-revealed
result, serializes the ring-member ciphertexts followed by the risk
score, asks the oracle for a decryption (the fresh token is an external
input) and records `token -> analysisId`.  Returns the serialized batch
together with the new state.  The source has no pending-request check. -/
def requestResultDecryption (analysisId freshToken : Nat) (s : ContractState) :
    Except Err (List EU32 × ContractState) :=
  let result := s.analysisResults analysisId
  if result.isComplete = false then .error .analysisNotComplete
  else if (s.decryptedResults analysisId).isRevealed = true then
    .error .alreadyRevealed
  else
    let ciphertexts := result.encryptedRingMembers ++ [result.encryptedRiskScore]
    .ok (ciphertexts,
      { s with requestToAnalysisId := upd s.requestToAnalysisId freshToken analysisId })

/-- `decryptAnalysisResult`: the oracle callback.  Looks the token up
(the mapping's zero default makes an unknown token indistinguishable
from analysis id 0), requires the result unrevealed, verifies the proof
(`sigOk` is the outcome of `FHE.checkSignatures`), decodes `cleartexts`
(given here already decoded), splits all-but-last/last and reveals.
`results.length - 1` underflows (checked-arithmetic panic) on an empty
list.  The source never removes `requestToAnalysisId` entries. -/
def decryptAnalysisResult (requestId : Nat) (cleartexts : List Nat) (sigOk : Bool)
    (s : ContractState) : Except Err ContractState :=
  let analysisId := s.requestToAnalysisId requestId
  if analysisId = 0 then .error .invalidRequest
  else if (s.decryptedResults analysisId).isRevealed = true then
    .error .alreadyRevealed
  else if sigOk = false then .error .proofVerificationFailed
  else if cleartexts.length = 0 then .error .arithmeticOverflow
  else
    .ok { s with
      decryptedResults := upd s.decryptedResults analysisId
        ⟨cleartexts.take (cleartexts.length - 1),
         cleartexts.getD (cleartexts.length - 1) 0,
         true⟩ }

/-- `getEncryptedAnalysisResult`: read-only view of a complete bundle. -/
def getEncryptedAnalysisResult (analysisId : Nat) (s : ContractState) :
    Except Err (List EU32 × EU32) :=
  let r := s.analysisResults analysisId
  if r.isComplete = false then .error .analysisNotComplete
  else .ok (r.encryptedRingMembers, r.encryptedRiskScore)

/-- `getDecryptedAnalysisResult`: read-only view, always succeeds. -/
def getDecryptedAnalysisResult (analysisId : Nat) (s : ContractState) :
    List Nat × Nat × Bool :=
  let r := s.decryptedResults analysisId
  (r.ringMembers, r.riskScore, r.isRevealed)

/-- One round of the loop body of `encryptedBFS`: reads
`visited[FHE.decrypt current]` and `result[FHE.decrypt index]` (EVM
bounds panic if either decrypted cursor is out of range) and performs
the two conditional `FHE.select` writes at those decrypted positions. -/
def bfsRound (visited result : List EU32) (current index : EU32) :
    Except Err (List EU32 × List EU32) :=
  match visited[FHE.decrypt current]?, result[FHE.decrypt index]? with
  | some vc, some ri =>
    let isVisited := FHE.ne vc (FHE.asEuint32 1)
    let shouldVisit := FHE.and isVisited (FHE.gt current (FHE.asEuint32 0))
    let visited' := visited.set (FHE.decrypt current)
      (FHE.select shouldVisit (FHE.asEuint32 1) vc)
    let result' := result.set (FHE.decrypt index)
      (FHE.select shouldVisit current ri)
    .ok (visited', result')
  | _, _ => .error .indexOutOfBounds

/-- The `for` loop of `encryptedBFS`, iterated on the remaining round
count.  Besides the returned `result` array (first component, as in the
source) the model instruments the run with the number of completed
rounds (second component) and the sequence of `visited`-array indices
touched, the failing access included (third component). -/
def bfsLoop : Nat → List EU32 → List EU32 → EU32 → EU32 →
    Except Err (List EU32) × Nat × List Nat
  | 0, _, result, _, _ => (.ok result, 0, [])
  | fuel + 1, visited, result, current, index =>
    match bfsRound visited result current index with
    | .ok (visited', result') =>
      let rest := bfsLoop fuel visited' result'
        (FHE.add current (FHE.asEuint32 1)) (FHE.add index (FHE.asEuint32 1))
      (rest.1, rest.2.1 + 1, FHE.decrypt current :: rest.2.2)
    | .error e => (.error e, 0, [FHE.decrypt current])

/-- `encryptedBFS`: requires an initialized matrix, allocates the three
zeroed arrays (`queue` is written but never read by the source) and runs
`matrixSize` rounds from `current = startNode`, `index = 0`.  Returns
the result array together with the round/access instrumentation. -/
def bfsRun (startNode : EU32) (s : ContractState) :
    Except Err (List EU32) × Nat × List Nat :=
  if s.matrixSize = 0 then (.error .matrixNotInitialized, 0, [])
  else
    let visited := (List.range s.matrixSize).map (fun _ => FHE.asEuint32 0)
    let queue := (List.range s.matrixSize).map (fun _ => FHE.asEuint32 0)
    let result := (List.range s.matrixSize).map (fun _ => FHE.asEuint32 0)
    let _ := queue
    bfsLoop s.matrixSize visited result startNode (FHE.asEuint32 0)

/-- The value `encryptedBFS` returns (or its revert reason). -/
def encryptedBFS (startNode : EU32) (s : ContractState) :
    Except Err (List EU32) :=
  (bfsRun startNode s).1

/-- Number of loop rounds `encryptedBFS` completes. -/
def bfsRoundCount (startNode : EU32) (s : ContractState) : Nat :=
  (bfsRun startNode s).2.1

/-- The `visited`-array indices `encryptedBFS` touches, in order. -/
def bfsVisitedIdxs (startNode : EU32) (s : ContractState) : List Nat :=
  (bfsRun startNode s).2.2

/-- The contract's state-mutating entry points, as one step alphabet. -/
inductive Op where
  | submitTx (tid cp sec amt ts : EU32) (blockTime : Nat)
  | initMatrix (size : Nat)
  | addEdge (f t : Nat) (w : EU32)
  | startRing
  | store (analysisId : Nat) (ring : List EU32) (score : EU32)
  | request (analysisId freshToken : Nat)
  | callback (requestId : Nat) (cleartexts : List Nat) (sigOk : Bool)

/-- One external call; a reverting call leaves storage unchanged. -/
def step (op : Op) (s : ContractState) : ContractState :=
  match op with
  | .submitTx a b c d e bt => submitEncryptedTransaction a b c d e bt s
  | .initMatrix n => initializeAdjacencyMatrix n s
  | .addEdge f t w =>
    match addEncryptedEdge f t w s with
    | .ok s' => s'
    | .error _ => s
  | .startRing => startRingDetection s
  | .store id ring score => storeAnalysisResults id ring score s
  | .request id tok =>
    match requestResultDecryption id tok s with
    | .ok (_, s') => s'
    | .error _ => s
  | .callback tok p sg =>
    match decryptAnalysisResult tok p sg s with
    | .ok s' => s'
    | .error _ => s

/-- A sequence of external calls. -/
def execOps (ops : List Op) (s : ContractState) : ContractState :=
  ops.foldl (fun st op => step op st) s

/-- Matrix of size 1, freshly initialized. -/
def stM1 : ContractState := initializeAdjacencyMatrix 1 initialState

/-- Matrix of size 2, freshly initialized. -/
def stM2 : ContractState := initializeAdjacencyMatrix 2 initialState

/-- Matrix of size 4, freshly initialized. -/
def stM4 : ContractState := initializeAdjacencyMatrix 4 initialState

/-- A complete encrypted result stored under analysis id 1. -/
def sStored : ContractState := storeAnalysisResults 1 [5] 9 initialState

/-- ... with a decryption request pending under token 42. -/
def sPending : ContractState := step (.request 1 42) sStored

/-- ... after the oracle delivered plaintexts `[3, 7]` for token 42. -/
def sRevealed : ContractState := step (.callback 42 [3, 7] true) sPending

/-- A complete encrypted result stored under analysis id 0. -/
def sStored0 : ContractState := storeAnalysisResults 0 [5] 9 initialState

/-- ... with a decryption request issued for id 0 under token 7. -/
def sPending0 : ContractState := step (.request 0 7) sStored0

/-! ### Helper lemmas -/

lemma upd_self {α : Type} (m : Nat → α) (k : Nat) (v : α) : upd m k v k = v := by
  simp [upd]

lemma upd_other {α : Type} (m : Nat → α) (k x : Nat) (v : α) (h : x ≠ k) :
    upd m k v x = m x := by
  simp [upd, h]

/-- Success inversion for `requestResultDecryption`. -/
lemma requestResultDecryption_ok_inv {id tok : Nat} {s : ContractState}
    {b : List EU32} {s' : ContractState}
    (h : requestResultDecryption id tok s = .ok (b, s')) :
    (s.analysisResults id).isComplete = true ∧
    (s.decryptedResults id).isRevealed = false ∧
    b = (s.analysisResults id).encryptedRingMembers ++
      [(s.analysisResults id).encryptedRiskScore] ∧
    s' = { s with requestToAnalysisId := upd s.requestToAnalysisId tok id } := by
  simp only [requestResultDecryption] at h
  split_ifs at h with h1 h2
  injection h with h
  injection h with hb hs
  subst hb
  subst hs
  exact ⟨by simpa using h1, by simpa using h2, rfl, rfl⟩

/-- Success inversion for `decryptAnalysisResult`. -/
lemma decryptAnalysisResult_ok_inv {tok : Nat} {p : List Nat} {sg : Bool}
    {s s' : ContractState}
    (h : decryptAnalysisResult tok p sg s = .ok s') :
    s.requestToAnalysisId tok ≠ 0 ∧
    (s.decryptedResults (s.requestToAnalysisId tok)).isRevealed = false ∧
    sg = true ∧ p.length ≠ 0 ∧
    s' = { s with
      decryptedResults := upd s.decryptedResults (s.requestToAnalysisId tok)
        ⟨p.take (p.length - 1), p.getD (p.length - 1) 0, true⟩ } := by
  simp only [decryptAnalysisResult] at h
  split_ifs at h with h1 h2 h3 h4
  injection h with h
  subst h
  exact ⟨h1, by simpa using h2, by simpa using h3, h4, rfl⟩

end InsiderRing

namespace InsiderRing

/-! ### Claim C4 -/

/-- Claim C4 (corrected): `storeAnalysisResults` has no duplicate check.
Called again on an id whose result is already complete, it succeeds,
replacing the stored encrypted result with the new values and resetting
the paired decrypted result to empty and unrevealed. -/
theorem c4_store_overwrites (s : ContractState) (id : Nat) (ring : List EU32)
    (score : EU32) (_hc : (s.analysisResults id).isComplete = true) :
    (storeAnalysisResults id ring score s).analysisResults id =
      ⟨ring, score, true⟩ ∧
    (storeAnalysisResults id ring score s).decryptedResults id =
      ⟨[], 0, false⟩ := by
  refine ⟨?_, ?_⟩ <;> simp [storeAnalysisResults, upd]

/-- Witness for C4 at a concrete already-complete id. -/
theorem c4_store_overwrites_witness :
    (sStored.analysisResults 1).isComplete = true ∧
    ((storeAnalysisResults 1 [6] 2 sStored).analysisResults 1 =
        ⟨[6], 2, true⟩ ∧
     (storeAnalysisResults 1 [6] 2 sStored).decryptedResults 1 =
        ⟨[], 0, false⟩) :=
  ⟨by decide, c4_store_overwrites sStored 1 [6] 2 (by decide)⟩

/-- Counterexample to C4 as stated: with a complete result stored under
id 1, a second `storeAnalysisResults` call for id 1 does not fail (the
source has no `DuplicateAnalysis` check) and changes the stored
encrypted result. -/
theorem c4_counterexample :
    (sStored.analysisResults 1).isComplete = true ∧
    (storeAnalysisResults 1 [6] 2 sStored).analysisResults 1 ≠
      sStored.analysisResults 1 := by
  exact ⟨by decide, by decide⟩

/-! ### Claim C7 -/

/-- Claim C7 (corrected): `initializeAdjacencyMatrix` performs no size
validation, so `size = 0` is accepted (yielding `matrixSize = 0` and an
empty matrix) rather than failing with `InvalidSize`; for every `size`
it allocates exactly `size * size` cells, every one of which is the
encrypted-zero ciphertext. -/
theorem c7_initialize_allocates (s : ContractState) (size : Nat) :
    (initializeAdjacencyMatrix size s).matrixSize = size ∧
    (initializeAdjacencyMatrix size s).encryptedAdjacencyMatrix =
      List.replicate (size * size) (FHE.asEuint32 0) := by
  refine ⟨rfl, ?_⟩
  simp [initializeAdjacencyMatrix]

/-- Counterexample to C7 as stated: `initializeAdjacencyMatrix 0`
completes normally — the source contains no check, so there is no
failure path at all — leaving a size-0, empty matrix. -/
theorem c7_counterexample :
    (initializeAdjacencyMatrix 0 initialState).matrixSize = 0 ∧
    (initializeAdjacencyMatrix 0 initialState).encryptedAdjacencyMatrix = [] :=
  ⟨rfl, rfl⟩

/-! ### Claim C3 -/

/-- Claim C3 (corrected): the source has no pending-request tracking, so
a second `requestResultDecryption` for the same id while the first is
outstanding does not fail with `RequestAlreadyPending`: it succeeds as
well, leaving two live token mappings for the same analysis id. -/
theorem c3_second_request_succeeds (s : ContractState) (id t1 t2 : Nat)
    (hc : (s.analysisResults id).isComplete = true)
    (hr : (s.decryptedResults id).isRevealed = false)
    (hne : t1 ≠ t2) :
    ∃ b1 s1 b2 s2,
      requestResultDecryption id t1 s = .ok (b1, s1) ∧
      requestResultDecryption id t2 s1 = .ok (b2, s2) ∧
      s2.requestToAnalysisId t1 = id ∧
      s2.requestToAnalysisId t2 = id := by
  have h1 : requestResultDecryption id t1 s =
      .ok ((s.analysisResults id).encryptedRingMembers ++
             [(s.analysisResults id).encryptedRiskScore],
           { s with requestToAnalysisId := upd s.requestToAnalysisId t1 id }) := by
    simp [requestResultDecryption, hc, hr]
  have h2 : requestResultDecryption id t2
      { s with requestToAnalysisId := upd s.requestToAnalysisId t1 id } =
      .ok ((s.analysisResults id).encryptedRingMembers ++
             [(s.analysisResults id).encryptedRiskScore],
           { s with requestToAnalysisId := upd (upd s.requestToAnalysisId t1 id) t2 id }) := by
    simp [requestResultDecryption, hc, hr]
  refine ⟨_, _, _, _, h1, h2, ?_, ?_⟩
  · simp [upd, hne]
  · simp [upd]

/-- Witness for C3: with a request for id 1 live under token 42, a
second request under token 43 also succeeds. -/
theorem c3_second_request_succeeds_witness :
    (sStored.analysisResults 1).isComplete = true ∧
    (sStored.decryptedResults 1).isRevealed = false ∧
    (42 : Nat) ≠ 43 ∧
    (∃ b1 s1 b2 s2,
      requestResultDecryption 1 42 sStored = .ok (b1, s1) ∧
      requestResultDecryption 1 43 s1 = .ok (b2, s2) ∧
      s2.requestToAnalysisId 42 = 1 ∧
      s2.requestToAnalysisId 43 = 1) :=
  ⟨by decide, by decide, by decide,
   c3_second_request_succeeds sStored 1 42 43 (by decide) (by decide)
     (by decide)⟩

/-- Counterexample to C3 as stated: in `sPending` a request for id 1 is
live (token 42 maps to 1), yet a further `requestResultDecryption` for
id 1 succeeds instead of failing. -/
theorem c3_counterexample :
    sPending.requestToAnalysisId 42 = 1 ∧
    (requestResultDecryption 1 43 sPending).isOk = true :=
  ⟨rfl, rfl⟩

/-! ### Claim C8 -/

/-- Claim C8 (confirmed): for in-range indices, reading an adjacency
cell after writing it yields the written weight, and a second write
overwrites (no accumulation); for an out-of-range index both operations
fail with the index-range error. -/
theorem c8_edge_set_get (s : ContractState) (f t : Nat) (w w2 : EU32)
    (hwf : s.encryptedAdjacencyMatrix.length = s.matrixSize * s.matrixSize) :
    (f < s.matrixSize → t < s.matrixSize →
      ∃ s1, addEncryptedEdge f t w s = .ok s1 ∧
        getAdjacencyElement f t s1 = .ok w ∧
        ∃ s2, addEncryptedEdge f t w2 s1 = .ok s2 ∧
          getAdjacencyElement f t s2 = .ok w2) ∧
    (¬ (f < s.matrixSize ∧ t < s.matrixSize) →
      addEncryptedEdge f t w s = .error .invalidIndex ∧
      getAdjacencyElement f t s = .error .invalidIndex) := by
  constructor
  · intro hf ht
    have hidx : f * s.matrixSize + t < s.matrixSize * s.matrixSize := by
      calc f * s.matrixSize + t < f * s.matrixSize + s.matrixSize := by omega
        _ = (f + 1) * s.matrixSize := by ring
        _ ≤ s.matrixSize * s.matrixSize :=
          Nat.mul_le_mul_right s.matrixSize (by omega)
    have hlen : f * s.matrixSize + t < s.encryptedAdjacencyMatrix.length := by
      rw [hwf]; exact hidx
    have hlen1 : f * s.matrixSize + t <
        (s.encryptedAdjacencyMatrix.set (f * s.matrixSize + t) w).length := by
      simpa using hlen
    have hset1 : addEncryptedEdge f t w s =
        .ok { s with encryptedAdjacencyMatrix := s.encryptedAdjacencyMatrix.set (f * s.matrixSize + t) w } := by
      simp [addEncryptedEdge, hf, ht, hlen]
    have hget1 : getAdjacencyElement f t
        { s with encryptedAdjacencyMatrix := s.encryptedAdjacencyMatrix.set (f * s.matrixSize + t) w } =
        .ok w := by
      simp [getAdjacencyElement, hf, ht, List.getElem?_set_eq_of_lt _ hlen]
    have hset2 : addEncryptedEdge f t w2
        { s with encryptedAdjacencyMatrix := s.encryptedAdjacencyMatrix.set (f * s.matrixSize + t) w } =
        .ok { s with encryptedAdjacencyMatrix := (s.encryptedAdjacencyMatrix.set (f * s.matrixSize + t) w).set (f * s.matrixSize + t) w2 } := by
      simp [addEncryptedEdge, hf, ht, hlen, hlen1]
    have hget2 : getAdjacencyElement f t
        { s with encryptedAdjacencyMatrix := (s.encryptedAdjacencyMatrix.set (f * s.matrixSize + t) w).set (f * s.matrixSize + t) w2 } =
        .ok w2 := by
      simp [getAdjacencyElement, hf, ht, List.getElem?_set_eq_of_lt _ hlen1,
        List.getElem?_set_eq_of_lt w2 hlen]
    exact ⟨_, hset1, hget1, _, hset2, hget2⟩
  · intro hcond
    exact ⟨by simp [addEncryptedEdge, hcond], by simp [getAdjacencyElement, hcond]⟩

/-- Witness for C8, exercising both branches on the size-2 matrix. -/
theorem c8_edge_set_get_witness :
    (stM2.encryptedAdjacencyMatrix.length = stM2.matrixSize * stM2.matrixSize) ∧
    (∃ s1, addEncryptedEdge 0 1 7 stM2 = .ok s1 ∧
      getAdjacencyElement 0 1 s1 = .ok 7 ∧
      ∃ s2, addEncryptedEdge 0 1 9 s1 = .ok s2 ∧
        getAdjacencyElement 0 1 s2 = .ok 9) ∧
    (addEncryptedEdge 2 0 7 stM2 = .error .invalidIndex ∧
     getAdjacencyElement 2 0 stM2 = .error .invalidIndex) :=
  ⟨by decide,
   (c8_edge_set_get stM2 0 1 7 9 (by decide)).1 (by decide) (by decide),
   (c8_edge_set_get stM2 2 0 7 9 (by decide)).2 (by decide)⟩

/-! ### BFS loop lemmas -/

/-- When both decrypted cursors are in range, a BFS round succeeds and
preserves the array lengths. -/
lemma bfsRound_ok (visited result : List EU32) (current index : EU32)
    (hc : FHE.decrypt current < visited.length)
    (hi : FHE.decrypt index < result.length) :
    ∃ visited' result',
      bfsRound visited result current index = .ok (visited', result') ∧
      visited'.length = visited.length ∧ result'.length = result.length := by
  have h1 : visited[FHE.decrypt current]? = some visited[FHE.decrypt current] :=
    List.getElem?_eq_getElem hc
  have h2 : result[FHE.decrypt index]? = some result[FHE.decrypt index] :=
    List.getElem?_eq_getElem hi
  have hx : bfsRound visited result current index =
      .ok (visited.set (FHE.decrypt current)
             (FHE.select (FHE.and (FHE.ne visited[FHE.decrypt current] (FHE.asEuint32 1))
                 (FHE.gt current (FHE.asEuint32 0)))
               (FHE.asEuint32 1) visited[FHE.decrypt current]),
           result.set (FHE.decrypt index)
             (FHE.select (FHE.and (FHE.ne visited[FHE.decrypt current] (FHE.asEuint32 1))
                 (FHE.gt current (FHE.asEuint32 0)))
               current result[FHE.decrypt index])) := by
    simp only [bfsRound, h1, h2]
  exact ⟨_, _, hx, by simp, by simp⟩

/-- A BFS round can only abort through the array bounds panic. -/
lemma bfsRound_error_eq {visited result : List EU32} {current index : EU32}
    {e : Err} (h : bfsRound visited result current index = .error e) :
    e = .indexOutOfBounds := by
  simp only [bfsRound] at h
  cases h1 : visited[FHE.decrypt current]? with
  | none =>
    rw [h1] at h
    injection h with h
    exact h.symm
  | some vc =>
    rw [h1] at h
    cases h2 : result[FHE.decrypt index]? with
    | none =>
      rw [h2] at h
      injection h with h
      exact h.symm
    | some ri =>
      rw [h2] at h
      simp at h

/-- The loop body never raises the matrix-initialization error. -/
lemma bfsLoop_ne_matrixNotInitialized :
    ∀ (f : Nat) (v r : List EU32) (c i : EU32),
      (bfsLoop f v r c i).1 ≠ .error .matrixNotInitialized := by
  intro f
  induction f with
  | zero =>
    intro v r c i h
    exact absurd h (by simp [bfsLoop])
  | succ f ih =>
    intro v r c i h
    simp only [bfsLoop] at h
    cases hx : bfsRound v r c i with
    | ok pr =>
      obtain ⟨v', r'⟩ := pr
      rw [hx] at h
      exact ih _ _ _ _ h
    | error e =>
      rw [hx] at h
      have he := bfsRound_error_eq hx
      subst he
      exact absurd h (by simp)

/-- When both cursors track the (mod `2 ^ 32`) round counter starting
from 0, every round is in range, so the loop runs to the end: it
completes exactly as many rounds as it is given, whatever the array
contents. -/
lemma bfsLoop_all_rounds (n : Nat) :
    ∀ (f j : Nat) (c i : EU32) (v r : List EU32), j + f = n →
      v.length = n → r.length = n → c = j % U32 → i = j % U32 →
      (bfsLoop f v r c i).2.1 = f ∧ ((bfsLoop f v r c i).1).isOk = true := by
  intro f
  induction f with
  | zero =>
    intro j c i v r hj hv hr hcj hij
    exact ⟨rfl, rfl⟩
  | succ f ih =>
    intro j c i v r hj hv hr hcj hij
    subst hcj
    subst hij
    have hjn : j < n := by omega
    have hc : FHE.decrypt (j % U32) < v.length := by
      rw [hv]; exact lt_of_le_of_lt (Nat.mod_le _ _) hjn
    have hi : FHE.decrypt (j % U32) < r.length := by
      rw [hr]; exact lt_of_le_of_lt (Nat.mod_le _ _) hjn
    obtain ⟨v', r', hround, hv', hr'⟩ := bfsRound_ok v r _ _ hc hi
    have h1m : (1 : Nat) % U32 = 1 := Nat.mod_eq_of_lt (by norm_num [U32])
    have hadd : FHE.add (j % U32) (FHE.asEuint32 1) = (j + 1) % U32 := by
      simp only [FHE.add, FHE.asEuint32, h1m, Nat.mod_add_mod]
    have key := ih (j + 1) (FHE.add (j % U32) (FHE.asEuint32 1))
      (FHE.add (j % U32) (FHE.asEuint32 1)) v' r' (by omega)
      (by rw [hv', hv]) (by rw [hr', hr]) hadd hadd
    constructor
    · simp only [bfsLoop, hround]
      rw [key.1]
    · simp only [bfsLoop, hround]
      exact key.2

/-! ### Claim C6 -/

/-- Claim C6 (corrected): `encryptedBFS` fails with
`MatrixNotInitialized` exactly when `matrixSize` is 0.  For an
initialized matrix of size `N` the loop bound is the plaintext `N`, so
when the start node decrypts to 0 the traversal executes exactly `N`
rounds whatever the matrix contents (the adjacency cells are quantified
over arbitrary states, so edge count and placement are irrelevant); but
for other start values the decrypted-cursor indexing can abort the
traversal early with an array bounds panic, so the round count is not
`N` for every invocation. -/
theorem c6_bfs_guard_and_round_count (s : ContractState) (startNode : EU32) :
    (encryptedBFS startNode s = .error .matrixNotInitialized ↔ s.matrixSize = 0) ∧
    (FHE.decrypt startNode = 0 → 0 < s.matrixSize →
      bfsRoundCount startNode s = s.matrixSize ∧
      (encryptedBFS startNode s).isOk = true) := by
  constructor
  · constructor
    · intro h
      by_contra hn
      simp only [encryptedBFS, bfsRun] at h
      rw [if_neg hn] at h
      exact bfsLoop_ne_matrixNotInitialized _ _ _ _ _ h
    · intro h
      simp [encryptedBFS, bfsRun, h]
  · intro hstart hpos
    have hn : ¬ s.matrixSize = 0 := by omega
    have hs0 : startNode = 0 := hstart
    have key := bfsLoop_all_rounds s.matrixSize s.matrixSize 0 startNode
      (FHE.asEuint32 0)
      ((List.range s.matrixSize).map (fun _ => FHE.asEuint32 0))
      ((List.range s.matrixSize).map (fun _ => FHE.asEuint32 0))
      (by omega) (by simp) (by simp) (by simp [hs0]) rfl
    constructor
    · simp only [bfsRoundCount, bfsRun]
      rw [if_neg hn]
      exact key.1
    · simp only [encryptedBFS, bfsRun]
      rw [if_neg hn]
      exact key.2

/-- Witness for C6: on the freshly initialized size-4 matrix with start
node encrypting 0, the traversal completes exactly 4 rounds. -/
theorem c6_bfs_witness :
    FHE.decrypt 0 = 0 ∧ 0 < stM4.matrixSize ∧
    (bfsRoundCount 0 stM4 = stM4.matrixSize ∧
     (encryptedBFS 0 stM4).isOk = true) :=
  ⟨rfl, by decide, (c6_bfs_guard_and_round_count stM4 0).2 rfl (by decide)⟩

/-- Counterexample to C6 as stated: the initialized size-1 matrix with
a start node encrypting 1 completes 0 rounds, not 1 — the very first
`visited[FHE.decrypt(current)]` access is out of range. -/
theorem c6_counterexample :
    stM1.matrixSize = 1 ∧
    encryptedBFS 1 stM1 = .error .indexOutOfBounds ∧
    bfsRoundCount 1 stM1 = 0 :=
  ⟨rfl, rfl, rfl⟩

/-! ### Claim C5 -/

/-- Claim C5 (code evidence): the `visited`-array index touched in each
round of `encryptedBFS` is `FHE.decrypt(current)` — the decrypted
traversal cursor — not the plaintext round counter.  On the size-4
matrix, starting from a node encrypting 2, the rounds touch indices
2, 3, 4 (aborting out of bounds at the third round), while starting
from 0 they touch 0, 1, 2, 3: the access pattern depends on the
decrypted value, and the traversal decrypts its cursor every round. -/
theorem c5_decrypted_cursor_indexing :
    bfsVisitedIdxs 2 stM4 = [2, 3, 4] ∧
    bfsVisitedIdxs 0 stM4 = [0, 1, 2, 3] ∧
    ([2, 3, 4] : List Nat) ≠ [0, 1, 2, 3] ∧
    encryptedBFS 2 stM4 = .error .indexOutOfBounds :=
  ⟨rfl, rfl, by decide, rfl⟩

/-! ### Claim C1 -/

/-- Claim C1 (corrected): once revealed, a Decrypted Result is never
un-revealed by `requestResultDecryption` (which reverts on a revealed
id) or by `decryptAnalysisResult` (which only ever sets the flag to
true); but `storeAnalysisResults` carries no duplicate check and resets
the paired decrypted result, so re-storing a revealed id does flip
`revealed` back to false. -/
theorem c1_revealed_persists_except_store (s : ContractState) (a : Nat)
    (h : (s.decryptedResults a).isRevealed = true)
    (id reqTok cbTok : Nat) (p : List Nat) (sg : Bool) :
    ((step (.request id reqTok) s).decryptedResults a).isRevealed = true ∧
    ((step (.callback cbTok p sg) s).decryptedResults a).isRevealed = true := by
  constructor
  · simp only [step]
    cases hreq : requestResultDecryption id reqTok s with
    | ok v =>
      obtain ⟨b, s'⟩ := v
      obtain ⟨-, -, -, rfl⟩ := requestResultDecryption_ok_inv hreq
      simpa using h
    | error e => simpa using h
  · simp only [step]
    cases hcb : decryptAnalysisResult cbTok p sg s with
    | ok s' =>
      obtain ⟨hne0, hunrev, -, -, rfl⟩ := decryptAnalysisResult_ok_inv hcb
      by_cases haa : a = s.requestToAnalysisId cbTok
      · subst haa
        rw [h] at hunrev
        simp at hunrev
      · simpa [upd, haa] using h
    | error e => simpa using h

/-- Witness for C1: in `sRevealed`, analysis 1 is revealed; a further
request and a further callback both leave it revealed. -/
theorem c1_revealed_persists_witness :
    (sRevealed.decryptedResults 1).isRevealed = true ∧
    (((step (.request 1 50) sRevealed).decryptedResults 1).isRevealed = true ∧
     ((step (.callback 42 [4, 4] true) sRevealed).decryptedResults 1).isRevealed = true) :=
  ⟨by decide,
   c1_revealed_persists_except_store sRevealed 1 (by decide) 1 50 42 [4, 4] true⟩

/-- Counterexample to C1 as stated: analysis 1 is revealed in
`sRevealed`, yet the operation sequence consisting of one further
`storeAnalysisResults` call for id 1 makes `revealed` false again. -/
theorem c1_counterexample :
    (sRevealed.decryptedResults 1).isRevealed = true ∧
    ((execOps [.store 1 [5] 9] sRevealed).decryptedResults 1).isRevealed = false :=
  ⟨by decide, by decide⟩

/-! ### Claim C2 -/

/-- Claim C2 (corrected): the source never removes the
`requestToAnalysisId` entry, so a replay of a consumed token is not
rejected as `InvalidRequest`; it is rejected by the revealed flag with
`AlreadyRevealed`, leaving the state (and so the Decrypted Result)
unchanged, and the token keeps mapping to its analysis id. -/
theorem c2_replay_rejected_already_revealed (s s1 : ContractState) (tok : Nat)
    (p : List Nat) (sg : Bool)
    (h : decryptAnalysisResult tok p sg s = .ok s1)
    (p2 : List Nat) (sg2 : Bool) :
    decryptAnalysisResult tok p2 sg2 s1 = .error .alreadyRevealed ∧
    step (.callback tok p2 sg2) s1 = s1 ∧
    s1.requestToAnalysisId tok = s.requestToAnalysisId tok := by
  obtain ⟨hne0, hunrev, hsg, hp, rfl⟩ := decryptAnalysisResult_ok_inv h
  have herr : decryptAnalysisResult tok p2 sg2
      { s with decryptedResults := upd s.decryptedResults (s.requestToAnalysisId tok) ⟨p.take (p.length - 1), p.getD (p.length - 1) 0, true⟩ } =
      .error .alreadyRevealed := by
    simp [decryptAnalysisResult, hne0, upd]
  exact ⟨herr, by simp only [step]; rw [herr], rfl⟩

/-- Witness for C2 at the concrete consumed token 42. -/
theorem c2_replay_rejected_witness :
    decryptAnalysisResult 42 [3, 7] true sPending = .ok sRevealed ∧
    (decryptAnalysisResult 42 [8, 8] false sRevealed = .error .alreadyRevealed ∧
     step (.callback 42 [8, 8] false) sRevealed = sRevealed ∧
     sRevealed.requestToAnalysisId 42 = sPending.requestToAnalysisId 42) :=
  ⟨rfl,
   c2_replay_rejected_already_revealed sPending sRevealed 42 [3, 7] true rfl
     [8, 8] false⟩

/-- Counterexample to C2 as stated: replaying token 42 after its
successful delivery fails with `AlreadyRevealed`, not `InvalidRequest`,
and the token-to-analysis-id mapping is still in place. -/
theorem c2_counterexample :
    decryptAnalysisResult 42 [3, 7] true sPending = .ok sRevealed ∧
    decryptAnalysisResult 42 [3, 7] true sRevealed = .error .alreadyRevealed ∧
    Err.alreadyRevealed ≠ Err.invalidRequest ∧
    sRevealed.requestToAnalysisId 42 = 1 :=
  ⟨rfl, rfl, by decide, rfl⟩

/-! ### Claim C9 -/

/-- Claim C9 (confirmed): `requestResultDecryption` serializes the
bundle as the ring-member ciphertexts in order with the risk score
last; every successful `decryptAnalysisResult` delivering plaintexts
`p` of length `n` writes `p` minus its last element as the ring
members, the last element as the risk score, and sets revealed. -/
theorem c9_serialization_and_split (s : ContractState) (id freshTok tok : Nat)
    (p : List Nat) (sg : Bool) :
    (∀ b s1, requestResultDecryption id freshTok s = .ok (b, s1) →
      b = (s.analysisResults id).encryptedRingMembers ++
        [(s.analysisResults id).encryptedRiskScore]) ∧
    (∀ s2, decryptAnalysisResult tok p sg s = .ok s2 →
      (s2.decryptedResults (s.requestToAnalysisId tok)).ringMembers =
        p.take (p.length - 1) ∧
      (s2.decryptedResults (s.requestToAnalysisId tok)).riskScore =
        p.getD (p.length - 1) 0 ∧
      (s2.decryptedResults (s.requestToAnalysisId tok)).isRevealed = true) := by
  constructor
  · intro b s1 h
    exact (requestResultDecryption_ok_inv h).2.2.1
  · intro s2 h
    obtain ⟨-, -, -, -, rfl⟩ := decryptAnalysisResult_ok_inv h
    refine ⟨?_, ?_, ?_⟩ <;> simp [upd]

/-- Witness for C9 on the concrete stored bundle `[5]; 9` and the
concrete plaintext delivery `[3, 7]`. -/
theorem c9_serialization_witness :
    ([5, 9] = (sStored.analysisResults 1).encryptedRingMembers ++
      [(sStored.analysisResults 1).encryptedRiskScore]) ∧
    ((sRevealed.decryptedResults 1).ringMembers = [3] ∧
     (sRevealed.decryptedResults 1).riskScore = 7 ∧
     (sRevealed.decryptedResults 1).isRevealed = true) :=
  ⟨(c9_serialization_and_split sStored 1 42 42 [3, 7] true).1 [5, 9] sPending rfl,
   (c9_serialization_and_split sPending 1 42 42 [3, 7] true).2 sRevealed rfl⟩

/-! ### Claim C10 -/

/-- Every single external call preserves "analysis id 0 is unrevealed":
the only operation that sets a revealed flag is the callback, and its
`analysisId != 0` guard keeps it away from id 0. -/
lemma step_preserves_unrevealed_zero (op : Op) (s : ContractState)
    (h : (s.decryptedResults 0).isRevealed = false) :
    ((step op s).decryptedResults 0).isRevealed = false := by
  cases op with
  | submitTx a b c d e bt => simpa [step, submitEncryptedTransaction] using h
  | initMatrix n => simpa [step, initializeAdjacencyMatrix] using h
  | addEdge f t w =>
    simp only [step]
    cases hx : addEncryptedEdge f t w s with
    | ok s' =>
      simp only [addEncryptedEdge] at hx
      split_ifs at hx
      injection hx with hx
      subst hx
      simpa using h
    | error e => simpa using h
  | startRing => simpa [step, startRingDetection] using h
  | store id ring score =>
    simp only [step, storeAnalysisResults]
    by_cases h0 : (0 : Nat) = id
    · simp [upd, h0]
    · simpa [upd, h0] using h
  | request id tok =>
    simp only [step]
    cases hx : requestResultDecryption id tok s with
    | ok v =>
      obtain ⟨b, s'⟩ := v
      obtain ⟨-, -, -, rfl⟩ := requestResultDecryption_ok_inv hx
      simpa using h
    | error e => simpa using h
  | callback tok p sg =>
    simp only [step]
    cases hx : decryptAnalysisResult tok p sg s with
    | ok s' =>
      obtain ⟨hne0, -, -, -, rfl⟩ := decryptAnalysisResult_ok_inv hx
      have h0 : ¬ (0 = s.requestToAnalysisId tok) := fun hh => hne0 hh.symm
      simpa [upd, h0] using h
    | error e => simpa using h

/-- Claim C10 (confirmed): `storeAnalysisResults` accepts id 0 and
`requestResultDecryption` accepts id 0 (recording a token mapping equal
to the mapping's absent-default 0), but `decryptAnalysisResult` rejects
every token mapping to 0 with `InvalidRequest`, exactly as it rejects a
token never issued; consequently no sequence of operations can ever
reveal the Decrypted Result of analysis id 0. -/
theorem c10_id_zero_never_revealed :
    (∀ s ring score,
      ((storeAnalysisResults 0 ring score s).analysisResults 0).isComplete = true) ∧
    (∀ s tok, (s.analysisResults 0).isComplete = true →
      (s.decryptedResults 0).isRevealed = false →
      ∃ b s', requestResultDecryption 0 tok s = .ok (b, s') ∧
        s'.requestToAnalysisId tok = 0) ∧
    (∀ s tok p sg, s.requestToAnalysisId tok = 0 →
      decryptAnalysisResult tok p sg s = .error .invalidRequest) ∧
    (∀ s ops, (s.decryptedResults 0).isRevealed = false →
      ((execOps ops s).decryptedResults 0).isRevealed = false) := by
  refine ⟨?_, ?_, ?_, ?_⟩
  · intro s ring score
    simp [storeAnalysisResults, upd]
  · intro s tok hc hr
    refine ⟨(s.analysisResults 0).encryptedRingMembers ++ [(s.analysisResults 0).encryptedRiskScore], { s with requestToAnalysisId := upd s.requestToAnalysisId tok 0 }, ?_, ?_⟩
    · simp [requestResultDecryption, hc, hr]
    · simp [upd]
  · intro s tok p sg h
    simp [decryptAnalysisResult, h]
  · intro s ops
    induction ops generalizing s with
    | nil => intro h; simpa [execOps] using h
    | cons op rest ih =>
      intro h
      have hstep := step_preserves_unrevealed_zero op s h
      simpa [execOps] using ih (step op s) hstep

/-- Witness for C10 on a concrete id-0 scenario: store succeeds, the
request succeeds with an absent-looking mapping, the callback is
rejected, and after the whole sequence id 0 is still unrevealed. -/
theorem c10_id_zero_witness :
    ((storeAnalysisResults 0 [5] 9 initialState).analysisResults 0).isComplete = true ∧
    ((sStored0.analysisResults 0).isComplete = true ∧
     (sStored0.decryptedResults 0).isRevealed = false ∧
     (∃ b s', requestResultDecryption 0 7 sStored0 = .ok (b, s') ∧
        s'.requestToAnalysisId 7 = 0)) ∧
    (sPending0.requestToAnalysisId 7 = 0 ∧
     decryptAnalysisResult 7 [3, 4] true sPending0 = .error .invalidRequest) ∧
    ((initialState.decryptedResults 0).isRevealed = false ∧
     ((execOps [.store 0 [5] 9, .request 0 7, .callback 7 [3, 4] true]
        initialState).decryptedResults 0).isRevealed = false) :=
  ⟨c10_id_zero_never_revealed.1 initialState [5] 9,
   ⟨by decide, by decide,
    c10_id_zero_never_revealed.2.1 sStored0 7 (by decide) (by decide)⟩,
   ⟨by decide,
    c10_id_zero_never_revealed.2.2.1 sPending0 7 [3, 4] true (by decide)⟩,
   ⟨by decide,
    c10_id_zero_never_revealed.2.2.2 initialState
      [.store 0 [5] 9, .request 0 7, .callback 7 [3, 4] true] (by decide)⟩⟩

end InsiderRing
